import Mathlib

/-!
Verification of the flr-wb whiteboard drawing core: a shallow embedding of
the client-side stroke capture and rendering pipeline
(frontend drawingUtils: `getDistance`, `optimizePoints`, `smoothPoints`,
`drawSmoothLine`, `resizeCanvas`, `clearCanvas`; the Whiteboard component:
`syncOffscreenCanvasSize`, `renderAllStrokes`, `startDrawing`, `draw`,
`endDrawing`, `handleClearCanvas`), with theorems settling the spec's
claims about it.

JS numbers are embedded as exact rationals (ℚ).  The comparison
`getDistance(p1, p2) >= d` (with `getDistance` the Euclidean distance
`sqrt(dx^2 + dy^2)`) is embedded as the exact equivalent
`d ≤ 0 ∨ d^2 ≤ distSq p1 p2`, which avoids square roots.  Point objects
are immutable value records; the JS reference inequality `!==` between
points held in the working arrays is embedded as value inequality.
-/

namespace WB

/-- A canvas-space point (`Point` of types/whiteboard.ts). -/
structure Point where
  x : ℚ
  y : ℚ
deriving DecidableEq

/-- Squared Euclidean distance between two points: the radicand of
`getDistance` in drawingUtils. -/
def distSq (p1 p2 : Point) : ℚ :=
  (p2.x - p1.x) ^ 2 + (p2.y - p1.y) ^ 2

/-- Embedding of the comparison `getDistance(p1, p2) >= d`: for real
numbers, `sqrt s ≥ d ↔ d ≤ 0 ∨ d^2 ≤ s` (s nonneg), so the test is
expressed exactly over ℚ. -/
def distGE (p1 p2 : Point) (d : ℚ) : Bool :=
  decide (d ≤ 0) || decide (d ^ 2 ≤ distSq p1 p2)

/-- The retention loop of `optimizePoints`: walk the remaining points,
keeping a point exactly when its distance from the last retained point
(`last`) is at least `minDistance`; a kept point becomes the new last
retained point. -/
def optLoop (minDistance : ℚ) (last : Point) : List Point → List Point
  | [] => []
  | p :: ps =>
    if distGE last p minDistance then p :: optLoop minDistance p ps
    else optLoop minDistance last ps

/-- `optimizePoints(points, minDistance = 2)` of drawingUtils: lists of
length ≤ 1 are returned unchanged; otherwise the first point is always
retained, each further point is retained iff its distance from the last
retained point is ≥ `minDistance`, and finally the last input point is
appended when the loop's last retained point is not that point. -/
def optimizePoints (points : List Point) (minDistance : ℚ) : List Point :=
  if points.length ≤ 1 then points
  else
    match points with
    | [] => points
    | p0 :: tail =>
      let optimized := p0 :: optLoop minDistance p0 tail
      let lastPt := points.getLastD ⟨0, 0⟩
      if optimized.getLastD ⟨0, 0⟩ = lastPt then optimized
      else optimized ++ [lastPt]

/-- The moving-average point of `smoothPoints`: the coordinate-wise mean
of the `2*w+1` input points at indices `i-w .. i+w`. -/
def windowAvg (points : List Point) (i w : ℕ) : Point :=
  let idxs := (List.range (2 * w + 1)).map (fun k => i - w + k)
  { x := ((idxs.map (fun j => (points.getD j ⟨0, 0⟩).x)).sum) / (2 * w + 1 : ℚ)
    y := ((idxs.map (fun j => (points.getD j ⟨0, 0⟩).y)).sum) / (2 * w + 1 : ℚ) }

/-- `smoothPoints(points, windowSize = 3)` of drawingUtils: for inputs of
length ≤ windowSize the input itself; otherwise a copy where each index
`i` with `windowSize ≤ i < length - windowSize` is overwritten by the
moving average of the window centred on it. -/
def smoothPoints (points : List Point) (windowSize : ℕ) : List Point :=
  if points.length ≤ windowSize then points
  else
    (List.range points.length).map (fun i =>
      if windowSize ≤ i ∧ i + windowSize < points.length then
        windowAvg points i windowSize
      else points.getD i ⟨0, 0⟩)

/-- One operation issued against a 2D canvas rendering context. -/
inductive CanvasOp where
  | setStrokeStyle (color : String)
  | setLineWidth (w : ℚ)
  | setLineCapRound
  | setLineJoinRound
  | beginPath
  | moveTo (x y : ℚ)
  | lineTo (x y : ℚ)
  | quadraticCurveTo (cx cy x y : ℚ)
  | strokePath
  | drawImage
deriving DecidableEq

/-- The interior loop of `drawSmoothLine` applied to `points.tail`: for
each consecutive pair `(points[i], points[i+1])`, `i = 1 .. n-2`, one
`quadraticCurveTo` with `points[i]` as control point and the midpoint of
the pair as endpoint. -/
def midSegs : List Point → List CanvasOp
  | p :: q :: rest =>
    CanvasOp.quadraticCurveTo p.x p.y ((p.x + q.x) / 2) ((p.y + q.y) / 2)
      :: midSegs (q :: rest)
  | _ => []

/-- `drawSmoothLine(ctx, points, color, size)` of drawingUtils, as the
list of context operations it issues: nothing for fewer than 2 points;
a straight segment for exactly 2; otherwise a path through midpoints by
quadratic curves, closed by a final quadratic curve from the
second-to-last control point to the last point. -/
def drawSmoothLine (points : List Point) (color : String) (size : ℚ) :
    List CanvasOp :=
  if points.length < 2 then []
  else
    [CanvasOp.setStrokeStyle color, CanvasOp.setLineWidth size,
     CanvasOp.setLineCapRound, CanvasOp.setLineJoinRound, CanvasOp.beginPath]
    ++ (if points.length = 2 then
          [CanvasOp.moveTo (points.getD 0 ⟨0, 0⟩).x (points.getD 0 ⟨0, 0⟩).y,
           CanvasOp.lineTo (points.getD 1 ⟨0, 0⟩).x (points.getD 1 ⟨0, 0⟩).y]
        else
          CanvasOp.moveTo (points.getD 0 ⟨0, 0⟩).x (points.getD 0 ⟨0, 0⟩).y
            :: midSegs points.tail
            ++ [CanvasOp.quadraticCurveTo
                  (points.getD (points.length - 2) ⟨0, 0⟩).x
                  (points.getD (points.length - 2) ⟨0, 0⟩).y
                  (points.getD (points.length - 1) ⟨0, 0⟩).x
                  (points.getD (points.length - 1) ⟨0, 0⟩).y])
    ++ [CanvasOp.strokePath]

/-- A raster surface: backing-store dimensions, CSS display size, the
uniform scale of its context transform, and its painted content (the
operations whose effects are currently on the bitmap).  In the DOM,
assigning `canvas.width`/`canvas.height` resets both the bitmap and the
context transform, which the embedding mirrors. -/
structure Canvas where
  width : ℚ
  height : ℚ
  styleWidth : ℚ
  styleHeight : ℚ
  scale : ℚ
  content : List CanvasOp
deriving DecidableEq

/-- JS `Math.round`: half-way cases round toward positive infinity. -/
def jsRound (q : ℚ) : ℤ := ⌊q + 1 / 2⌋

/-- JS `a || b` on a possibly-missing number: `b` when `a` is absent or
zero (falsy), otherwise `a`. -/
def jsOr (a : Option ℚ) (b : ℚ) : ℚ :=
  match a with
  | some v => if v = 0 then b else v
  | none => b

/-- JS number-to-integer truncation (toward zero), the first step of the
ToUint32 conversion. -/
def jsTrunc (q : ℚ) : ℤ :=
  if 0 ≤ q then ⌊q⌋ else -⌊-q⌋

/-- The WebIDL `unsigned long` conversion applied when a number is
assigned to `canvas.width` / `canvas.height`: truncate toward zero, then
reduce modulo 2^32 into `[0, 2^32)`. -/
def jsToUint32 (q : ℚ) : ℤ :=
  jsTrunc q % 2 ^ 32

/-- `resizeCanvas(canvas)` of drawingUtils.  Inputs beyond the canvas
state: the parent container's bounding-box dimensions (absent when the
canvas has no parent), the canvas's own bounding-box dimensions (the
fallback), and `window.devicePixelRatio` (`|| 1` when falsy).  Degenerate
computed sizes (< 50) skip the resize; so does a computed display size
within 2 units of the current one in both dimensions.  An actual resize
assigns `floor(size) * dpr` to the backing-store dimensions — the DOM
coerces the assigned number through the `unsigned long` conversion
(`jsToUint32`), and the assignment clears the bitmap and resets the
transform, after which `ctx.scale(dpr, dpr)` is applied — and sets the
CSS size to the floored display size. -/
def resizeCanvas (c : Canvas) (parentW parentH : Option ℚ)
    (rectW rectH : ℚ) (dpr0 : ℚ) : Canvas :=
  let dpr := if dpr0 = 0 then 1 else dpr0
  let width0 := jsOr parentW rectW
  let height0 := jsOr parentH rectH
  if width0 = 0 ∨ height0 = 0 ∨ width0 < 50 ∨ height0 < 50 then c
  else
    let width : ℤ := ⌊width0⌋
    let height : ℤ := ⌊height0⌋
    let currentDisplayWidth : ℤ := jsRound (c.width / dpr)
    let currentDisplayHeight : ℤ := jsRound (c.height / dpr)
    if |currentDisplayWidth - width| < 2 ∧ |currentDisplayHeight - height| < 2
    then c
    else
      { width := (jsToUint32 ((width : ℚ) * dpr) : ℚ)
        height := (jsToUint32 ((height : ℚ) * dpr) : ℚ)
        styleWidth := width
        styleHeight := height
        scale := dpr
        content := [] }

/-- Whether a `resizeCanvas` call reaches the backing-store assignments:
`true` exactly when neither skip guard fires, so `canvas.width` and
`canvas.height` are written (each write is a backing-store mutation and
clears the bitmap, even when the assigned value is unchanged). -/
def resizeCanvasMutates (c : Canvas) (parentW parentH : Option ℚ)
    (rectW rectH : ℚ) (dpr0 : ℚ) : Bool :=
  let dpr := if dpr0 = 0 then 1 else dpr0
  let width0 := jsOr parentW rectW
  let height0 := jsOr parentH rectH
  if width0 = 0 ∨ height0 = 0 ∨ width0 < 50 ∨ height0 < 50 then false
  else
    let width : ℤ := ⌊width0⌋
    let height : ℤ := ⌊height0⌋
    let currentDisplayWidth : ℤ := jsRound (c.width / dpr)
    let currentDisplayHeight : ℤ := jsRound (c.height / dpr)
    if |currentDisplayWidth - width| < 2 ∧ |currentDisplayHeight - height| < 2
    then false
    else true

/-- `clearCanvas(canvas)` of drawingUtils: `clearRect` over the full
backing store empties the bitmap. -/
def clearCanvas (c : Canvas) : Canvas :=
  { c with content := [] }

/-- `StrokeChunk` of types/whiteboard.ts. -/
structure StrokeChunk where
  id : String
  boardId : String
  uid : String
  timestamp : ℤ
  points : List Point
  color : String
  size : ℚ
  chunkIndex : ℕ
  strokeComplete : Bool
deriving DecidableEq

/-- `DrawingState` of types/whiteboard.ts (the stroke id is kept opaque:
`generateStrokeId` mixes clock and randomness). -/
structure DrawingState where
  isDrawing : Bool
  currentStroke : List Point
  currentStrokeId : Option String
  chunkIndex : ℕ
deriving DecidableEq

/-- The Whiteboard component's initial drawing state. -/
def initState : DrawingState :=
  { isDrawing := false, currentStroke := [], currentStrokeId := none,
    chunkIndex := 0 }

/-- `startDrawing` of the Whiteboard component: begin a gesture with a
one-point stroke buffer at the sampled pointer position. -/
def startDrawing (pos : Point) (strokeId : String) (s : DrawingState) :
    DrawingState :=
  { s with
    isDrawing := true, currentStroke := [pos],
    currentStrokeId := some strokeId, chunkIndex := 0 }

/-- `draw` of the Whiteboard component: ignored unless a gesture is
active; otherwise append the sampled point and re-run decimation over
the whole accumulated buffer with the default threshold 2. -/
def draw (pos : Point) (s : DrawingState) : DrawingState :=
  if !s.isDrawing then s
  else { s with currentStroke := optimizePoints (s.currentStroke ++ [pos]) 2 }

/-- `endDrawing` of the Whiteboard component: ignored when the stroke
buffer is empty; otherwise build the finalized chunk (`strokeComplete :=
true`, points = the decimated buffer) handed to
`WhiteboardService.addStrokeChunk`, and reset the drawing state. -/
def endDrawing (boardId uid : String) (timestamp : ℤ) (color : String)
    (penSize : ℚ) (s : DrawingState) : Option StrokeChunk × DrawingState :=
  if s.currentStroke.length = 0 then (none, s)
  else
    (some
      { id := "", boardId := boardId, uid := uid, timestamp := timestamp,
        points := s.currentStroke, color := color, size := penSize,
        chunkIndex := s.chunkIndex, strokeComplete := true },
     { s with
       isDrawing := false, currentStroke := [],
       currentStrokeId := none, chunkIndex := 0 })

/-- A pointer event as the Whiteboard component receives it.  `up` (also
mouse-leave / touch-end / touch-cancel) carries the settings and clock
values `endDrawing` reads when it fires. -/
inductive PointerEvent where
  | down (pos : Point) (strokeId : String)
  | move (pos : Point)
  | up (boardId uid : String) (timestamp : ℤ) (color : String) (penSize : ℚ)

/-- One step of the Whiteboard component's event handling: the next
drawing state and the chunks submitted to the sync client by this event. -/
def step (s : DrawingState) : PointerEvent → DrawingState × List StrokeChunk
  | PointerEvent.down pos strokeId => (startDrawing pos strokeId s, [])
  | PointerEvent.move pos => (draw pos s, [])
  | PointerEvent.up boardId uid timestamp color penSize =>
    let r := endDrawing boardId uid timestamp color penSize s
    (r.2, r.1.toList)

/-- Run a sequence of pointer events, collecting every chunk submitted
to the sync client for persistence. -/
def run (s : DrawingState) : List PointerEvent → DrawingState × List StrokeChunk
  | [] => (s, [])
  | e :: es =>
    let r := step s e
    let rest := run r.1 es
    (rest.1, r.2 ++ rest.2)

/-- `syncOffscreenCanvasSize(visible, offscreen)` of the Whiteboard
component: when the offscreen backing dimensions differ from the visible
canvas's, resize the offscreen canvas to match (assigning
width/height clears its bitmap), copy the CSS size, reset the transform
and reapply the device-pixel-ratio scale. -/
def syncOffscreenCanvasSize (visible offscreen : Canvas) (dpr0 : ℚ) : Canvas :=
  if offscreen.width ≠ visible.width ∨ offscreen.height ≠ visible.height then
    let dpr := if dpr0 = 0 then 1 else dpr0
    { width := visible.width
      height := visible.height
      styleWidth := visible.styleWidth
      styleHeight := visible.styleHeight
      scale := dpr
      content := [] }
  else offscreen

/-- One context call `renderAllStrokes` makes, for the operation log. -/
inductive RenderOp where
  | clearVisible
  | clearOffscreen
  | drawStroke (ops : List CanvasOp)
  | blit
deriving DecidableEq

/-- `renderAllStrokes` of the Whiteboard component: sync the offscreen
canvas's size to the visible one, skip everything when either surface
then has a zero backing dimension, otherwise clear both surfaces, draw
every stroke onto the offscreen layer and blit it onto the visible
canvas.  Returns the two surfaces and the log of context calls made. -/
def renderAllStrokes (visible offscreen : Canvas) (allStrokes : List StrokeChunk)
    (dpr0 : ℚ) : Canvas × Canvas × List RenderOp :=
  let off1 := syncOffscreenCanvasSize visible offscreen dpr0
  if visible.width = 0 ∨ visible.height = 0 ∨ off1.width = 0 ∨ off1.height = 0
  then (visible, off1, [])
  else
    let vis1 := clearCanvas visible
    let off2 := clearCanvas off1
    let off3 := allStrokes.foldl
      (fun s stroke =>
        { s with content := s.content ++
            drawSmoothLine stroke.points stroke.color stroke.size }) off2
    let vis2 := { vis1 with content := vis1.content ++ [CanvasOp.drawImage] }
    (vis2, off3,
     [RenderOp.clearVisible, RenderOp.clearOffscreen]
       ++ allStrokes.map
            (fun stroke =>
              RenderOp.drawStroke
                (drawSmoothLine stroke.points stroke.color stroke.size))
       ++ [RenderOp.blit])

/-- `handleClearCanvas` of the Whiteboard component.  `remoteOk` is
whether `WhiteboardService.clearAllStrokes` resolved: only then are the
local stroke list emptied and both canvases cleared; a rejection is
caught by the empty `catch` block and every piece of local state is left
as it was. -/
def handleClearCanvas (remoteOk : Bool) (allStrokes : List StrokeChunk)
    (visible offscreen : Canvas) : List StrokeChunk × Canvas × Canvas :=
  if remoteOk then ([], clearCanvas visible, clearCanvas offscreen)
  else (allStrokes, visible, offscreen)

/-- A properly sized visible canvas holding some painted content. -/
def sampleVis : Canvas :=
  { width := 100, height := 100, styleWidth := 100, styleHeight := 100,
    scale := 1, content := [CanvasOp.beginPath] }

/-- An offscreen canvas that has not been sized yet (zero backing store). -/
def sampleOffZero : Canvas :=
  { width := 0, height := 0, styleWidth := 0, styleHeight := 0,
    scale := 1, content := [] }

/-- A finalized two-point stroke. -/
def sampleStroke : StrokeChunk :=
  { id := "a", boardId := "b", uid := "u", timestamp := 0,
    points := [⟨0, 0⟩, ⟨10, 10⟩], color := "#000000", size := 2,
    chunkIndex := 0, strokeComplete := true }

/-- The chunk a down-then-up gesture at the origin submits. -/
def sampleChunk : StrokeChunk :=
  { id := "", boardId := "b", uid := "u", timestamp := 0,
    points := [⟨0, 0⟩], color := "#000000", size := 5,
    chunkIndex := 0, strokeComplete := true }

/-- A minimal gesture: pointer-down at the origin, then pointer-up. -/
def sampleEvents : List PointerEvent :=
  [PointerEvent.down ⟨0, 0⟩ "s1", PointerEvent.up "b" "u" 0 "#000000" 5]

/-! ### Supporting lemmas for the stroke optimizer -/

theorem distSq_nonneg (p q : Point) : 0 ≤ distSq p q := by
  unfold distSq
  positivity

theorem distSq_self (p : Point) : distSq p p = 0 := by
  simp [distSq]

theorem distGE_of_nonneg {a b : Point} {t : ℚ} (ht : 0 ≤ t)
    (h : distGE a b t = true) : t ^ 2 ≤ distSq a b := by
  unfold distGE at h
  rcases Bool.or_eq_true_iff.mp h with h | h
  · have h0 : t = 0 := le_antisymm (by exact_mod_cast of_decide_eq_true h) ht
    simpa [h0] using distSq_nonneg a b
  · exact of_decide_eq_true h

theorem getLastD_congr {l : List Point} (hne : l ≠ []) (a b : Point) :
    l.getLastD a = l.getLastD b := by
  obtain ⟨y, hy⟩ := Option.isSome_iff_exists.mp (List.getLast?_isSome.mpr hne)
  simp [List.getLastD_eq_getLast?, hy]

theorem getLast?_eq_of_getLastD {l1 l2 : List Point} (z : Point)
    (h1 : l1 ≠ []) (h2 : l2 ≠ []) (h : l1.getLastD z = l2.getLastD z) :
    l1.getLast? = l2.getLast? := by
  obtain ⟨y1, hy1⟩ := Option.isSome_iff_exists.mp (List.getLast?_isSome.mpr h1)
  obtain ⟨y2, hy2⟩ := Option.isSome_iff_exists.mp (List.getLast?_isSome.mpr h2)
  rw [List.getLastD_eq_getLast?, List.getLastD_eq_getLast?, hy1, hy2] at h
  simp only [Option.getD_some] at h
  rw [hy1, hy2, h]

theorem optLoop_length_le (d : ℚ) (last : Point) (l : List Point) :
    (optLoop d last l).length ≤ l.length := by
  induction l generalizing last with
  | nil => simp [optLoop]
  | cons p ps ih =>
    by_cases h : distGE last p d = true
    · simpa [optLoop, h] using ih p
    · simp only [optLoop, h, Bool.false_eq_true, if_false, List.length_cons]
      exact (ih last).trans (Nat.le_succ _)

theorem optLoop_eq_of_length (d : ℚ) (last : Point) (l : List Point)
    (h : (optLoop d last l).length = l.length) : optLoop d last l = l := by
  induction l generalizing last with
  | nil => simp [optLoop]
  | cons p ps ih =>
    by_cases hd : distGE last p d = true
    · simp [optLoop, hd] at h ⊢
      exact ih p h
    · exfalso
      simp [optLoop, hd] at h
      have := optLoop_length_le d last ps
      omega

theorem optLoop_chain (d : ℚ) (last : Point) (l : List Point) :
    List.Chain (fun a b => distGE a b d = true) last (optLoop d last l) := by
  induction l generalizing last with
  | nil => simp [optLoop]
  | cons p ps ih =>
    by_cases hd : distGE last p d = true
    · simp only [optLoop, hd, if_true]
      exact List.Chain.cons hd (ih p)
    · simp only [optLoop, hd, Bool.false_eq_true, if_false]
      exact ih last

theorem optLoop_of_chain (d : ℚ) (last : Point) (l : List Point)
    (h : List.Chain (fun a b => distGE a b d = true) last l) :
    optLoop d last l = l := by
  induction l generalizing last with
  | nil => simp [optLoop]
  | cons p ps ih =>
    rcases List.chain_cons.mp h with ⟨h1, h2⟩
    simp [optLoop, h1, ih p h2]

theorem optLoop_append_of_chain (d : ℚ) (last : Point) (L rest : List Point)
    (h : List.Chain (fun a b => distGE a b d = true) last L) :
    optLoop d last (L ++ rest) = L ++ optLoop d (L.getLastD last) rest := by
  induction L generalizing last with
  | nil => simp
  | cons q L' ih =>
    rcases List.chain_cons.mp h with ⟨h1, h2⟩
    simp only [List.cons_append, optLoop, h1, if_true, List.getLastD_cons]
    exact congrArg (fun l => q :: l) (ih q h2)

theorem optLoop_last (d : ℚ) (last z : Point) (l : List Point) (hne : l ≠ []) :
    (optLoop d last l).getLastD last = l.getLastD z ∨
    distGE ((optLoop d last l).getLastD last) (l.getLastD z) d = false := by
  induction l generalizing last with
  | nil => exact absurd rfl hne
  | cons p ps ih =>
    by_cases hps : ps = []
    · subst hps
      by_cases hd : distGE last p d = true
      · left
        simp [optLoop, hd]
      · right
        simp only [optLoop, hd, Bool.false_eq_true, if_false]
        simpa using (Bool.not_eq_true _).mp hd
    · have hlast : (p :: ps).getLastD z = ps.getLastD z := by
        rw [List.getLastD_cons]
        exact getLastD_congr hps p z
      by_cases hd : distGE last p d = true
      · rw [hlast]
        simp only [optLoop, hd, if_true, List.getLastD_cons]
        exact ih p hps
      · rw [hlast]
        simp only [optLoop, hd, Bool.false_eq_true, if_false]
        exact ih last hps

theorem getLast?_eq_getLastD {l : List Point} (hne : l ≠ []) (z : Point) :
    l.getLast? = some (l.getLastD z) := by
  obtain ⟨y, hy⟩ := Option.isSome_iff_exists.mp (List.getLast?_isSome.mpr hne)
  simp [List.getLastD_eq_getLast?, hy]

theorem optimizePoints_nil (t : ℚ) : optimizePoints [] t = [] := rfl

theorem optimizePoints_singleton (p : Point) (t : ℚ) :
    optimizePoints [p] t = [p] := rfl

/-- Unfolding of `optimizePoints` on a list of length ≥ 2. -/
theorem optimizePoints_cons₂ (p0 p1 : Point) (rest : List Point) (t : ℚ) :
    optimizePoints (p0 :: p1 :: rest) t =
      if (p0 :: optLoop t p0 (p1 :: rest)).getLastD ⟨0, 0⟩ =
          (p0 :: p1 :: rest).getLastD ⟨0, 0⟩
      then p0 :: optLoop t p0 (p1 :: rest)
      else (p0 :: optLoop t p0 (p1 :: rest))
        ++ [(p0 :: p1 :: rest).getLastD ⟨0, 0⟩] := by
  simp [optimizePoints]

/-- C1: for every point list and nonnegative minimum-distance threshold,
`optimizePoints` returns a list whose length is at most the input's,
whose first element is the input's first point, whose last element
equals in value the input's last point, and in which any two consecutive
output points are at Euclidean distance ≥ the threshold (expressed
exactly as `t^2 ≤ distSq`), except possibly the final pair. -/
theorem optimizePoints_spec (ps : List Point) (t : ℚ) (ht : 0 ≤ t) :
    (optimizePoints ps t).length ≤ ps.length ∧
    (optimizePoints ps t).head? = ps.head? ∧
    (optimizePoints ps t).getLast? = ps.getLast? ∧
    List.Chain' (fun a b => t ^ 2 ≤ distSq a b) (optimizePoints ps t).dropLast := by
  rcases ps with _ | ⟨p0, _ | ⟨p1, rest⟩⟩
  · simp [optimizePoints]
  · simp [optimizePoints]
  · have hchain : List.Chain' (fun a b => distGE a b t = true)
        (p0 :: optLoop t p0 (p1 :: rest)) := optLoop_chain t p0 (p1 :: rest)
    have hchainP : List.Chain' (fun a b => t ^ 2 ≤ distSq a b)
        (p0 :: optLoop t p0 (p1 :: rest)) :=
      hchain.imp (fun a b h => distGE_of_nonneg ht h)
    rw [optimizePoints_cons₂]
    by_cases hif : (p0 :: optLoop t p0 (p1 :: rest)).getLastD ⟨0, 0⟩ =
        (p0 :: p1 :: rest).getLastD ⟨0, 0⟩
    · rw [if_pos hif]
      refine ⟨?_, by simp, ?_, ?_⟩
      · simpa using Nat.succ_le_succ (optLoop_length_le t p0 (p1 :: rest))
      · exact getLast?_eq_of_getLastD ⟨0, 0⟩ (by simp) (by simp) hif
      · exact hchainP.prefix (List.dropLast_prefix _)
    · rw [if_neg hif]
      refine ⟨?_, by simp, ?_, ?_⟩
      · have hlt : (optLoop t p0 (p1 :: rest)).length < (p1 :: rest).length := by
          rcases Nat.lt_or_ge (optLoop t p0 (p1 :: rest)).length
              (p1 :: rest).length with h | h
          · exact h
          · exfalso
            apply hif
            rw [optLoop_eq_of_length t p0 (p1 :: rest)
              (le_antisymm (optLoop_length_le t p0 (p1 :: rest)) h)]
        simp only [List.length_append, List.length_cons, List.length_nil] at hlt ⊢
        omega
      · rw [List.getLast?_concat,
          getLast?_eq_getLastD (l := p0 :: p1 :: rest) (by simp) ⟨0, 0⟩]
      · rw [List.dropLast_concat]
        exact hchainP

/-- Witness for C1: the jest test's input `[(0,0),(1,1),(5,5),(6,6),(10,10)]`
with threshold 3. -/
theorem optimizePoints_spec_witness :
    (optimizePoints [⟨0, 0⟩, ⟨1, 1⟩, ⟨5, 5⟩, ⟨6, 6⟩, ⟨10, 10⟩] 3).length ≤
      ([⟨0, 0⟩, ⟨1, 1⟩, ⟨5, 5⟩, ⟨6, 6⟩, ⟨10, 10⟩] : List Point).length ∧
    (optimizePoints [⟨0, 0⟩, ⟨1, 1⟩, ⟨5, 5⟩, ⟨6, 6⟩, ⟨10, 10⟩] 3).head? =
      ([⟨0, 0⟩, ⟨1, 1⟩, ⟨5, 5⟩, ⟨6, 6⟩, ⟨10, 10⟩] : List Point).head? ∧
    (optimizePoints [⟨0, 0⟩, ⟨1, 1⟩, ⟨5, 5⟩, ⟨6, 6⟩, ⟨10, 10⟩] 3).getLast? =
      ([⟨0, 0⟩, ⟨1, 1⟩, ⟨5, 5⟩, ⟨6, 6⟩, ⟨10, 10⟩] : List Point).getLast? ∧
    List.Chain' (fun a b => (3 : ℚ) ^ 2 ≤ distSq a b)
      (optimizePoints [⟨0, 0⟩, ⟨1, 1⟩, ⟨5, 5⟩, ⟨6, 6⟩, ⟨10, 10⟩] 3).dropLast :=
  optimizePoints_spec [⟨0, 0⟩, ⟨1, 1⟩, ⟨5, 5⟩, ⟨6, 6⟩, ⟨10, 10⟩] 3 (by norm_num)

/-- C9: `optimizePoints` is idempotent — re-running decimation over an
already-decimated buffer (as `draw` does on every pointer-move) never
removes or adds any further point. -/
theorem optimizePoints_idem (ps : List Point) (t : ℚ) :
    optimizePoints (optimizePoints ps t) t = optimizePoints ps t := by
  rcases ps with _ | ⟨p0, _ | ⟨p1, rest⟩⟩
  · rfl
  · rfl
  · have hchain := optLoop_chain t p0 (p1 :: rest)
    rw [optimizePoints_cons₂]
    by_cases hif : (p0 :: optLoop t p0 (p1 :: rest)).getLastD ⟨0, 0⟩ =
        (p0 :: p1 :: rest).getLastD ⟨0, 0⟩
    · rw [if_pos hif]
      cases hL : optLoop t p0 (p1 :: rest) with
      | nil => rfl
      | cons q L' =>
        rw [hL] at hchain
        rw [optimizePoints_cons₂, optLoop_of_chain t p0 (q :: L') hchain,
          if_pos rfl]
    · rw [if_neg hif]
      have hA : (p0 :: optLoop t p0 (p1 :: rest)).getLastD (⟨0, 0⟩ : Point) =
          (optLoop t p0 (p1 :: rest)).getLastD p0 := List.getLastD_cons _ _ _
      have hBL : (p0 :: p1 :: rest).getLastD (⟨0, 0⟩ : Point) =
          (p1 :: rest).getLastD ⟨0, 0⟩ := by
        rw [List.getLastD_cons]
        exact getLastD_congr (l := p1 :: rest) (by simp) p0 ⟨0, 0⟩
      have hfalse : distGE ((optLoop t p0 (p1 :: rest)).getLastD p0)
          ((p0 :: p1 :: rest).getLastD ⟨0, 0⟩) t = false := by
        rcases optLoop_last t p0 ⟨0, 0⟩ (p1 :: rest) (by simp) with h | h
        · exact absurd (by rw [hA, h, ← hBL]) hif
        · rw [hBL]
          exact h
      cases hL : optLoop t p0 (p1 :: rest) with
      | nil =>
        rw [hL] at hA hfalse hif
        have hfalse' : distGE p0 ((p0 :: p1 :: rest).getLastD ⟨0, 0⟩) t =
            false := hfalse
        have hone : optLoop t p0 [(p0 :: p1 :: rest).getLastD ⟨0, 0⟩] = [] := by
          simp only [optLoop]
          rw [hfalse']
          simp
        have hp0 : p0 ≠ (p0 :: p1 :: rest).getLastD (⟨0, 0⟩ : Point) :=
          fun h => hif (by simpa using h)
        show optimizePoints (p0 :: [(p0 :: p1 :: rest).getLastD ⟨0, 0⟩]) t =
          p0 :: [(p0 :: p1 :: rest).getLastD ⟨0, 0⟩]
        rw [optimizePoints_cons₂, hone, if_neg (by simpa using hp0)]
        rfl
      | cons q L' =>
        rw [hL] at hA hfalse hchain hif
        have hr : (q :: L').getLastD p0 ≠
            (p0 :: p1 :: rest).getLastD (⟨0, 0⟩ : Point) := by
          rw [← hA]
          exact hif
        have hdrop : optLoop t ((q :: L').getLastD p0)
            [(p0 :: p1 :: rest).getLastD ⟨0, 0⟩] = [] := by
          simp only [optLoop]
          rw [hfalse]
          simp
        have hconc : (p0 :: q :: (L' ++ [(p0 :: p1 :: rest).getLastD ⟨0, 0⟩])).getLastD
            (⟨0, 0⟩ : Point) = (p0 :: p1 :: rest).getLastD ⟨0, 0⟩ := by
          rw [show p0 :: q :: (L' ++ [(p0 :: p1 :: rest).getLastD (⟨0, 0⟩ : Point)]) =
              (p0 :: q :: L') ++ [(p0 :: p1 :: rest).getLastD ⟨0, 0⟩] from by simp,
            List.getLastD_concat]
        show optimizePoints (p0 :: q :: (L' ++ [(p0 :: p1 :: rest).getLastD ⟨0, 0⟩])) t =
          (p0 :: q :: L') ++ [(p0 :: p1 :: rest).getLastD ⟨0, 0⟩]
        rw [optimizePoints_cons₂]
        have hloop : optLoop t p0
            (q :: (L' ++ [(p0 :: p1 :: rest).getLastD ⟨0, 0⟩])) = q :: L' := by
          rw [← List.cons_append,
            optLoop_append_of_chain t p0 (q :: L') _ hchain, hdrop,
            List.append_nil]
        rw [hloop]
        have hcond : (p0 :: q :: L').getLastD (⟨0, 0⟩ : Point) ≠
            (p0 :: q :: (L' ++ [(p0 :: p1 :: rest).getLastD ⟨0, 0⟩])).getLastD
              ⟨0, 0⟩ := by
          rw [hconc, hA]
          exact hr
        rw [if_neg hcond, hconc]

/-- C7: `smoothPoints` preserves the length; the first `w` and last `w`
points are the corresponding input points; every other point at index
`i` is the coordinate-wise average of the `2w+1` input points at indices
`i-w .. i+w`; and an input of length ≤ `w` is returned unchanged. -/
theorem smoothPoints_spec (ps : List Point) (w : ℕ) :
    (smoothPoints ps w).length = ps.length ∧
    (∀ i : ℕ, i < w ∨ ps.length ≤ i + w → (smoothPoints ps w)[i]? = ps[i]?) ∧
    (∀ i : ℕ, w ≤ i → i + w < ps.length →
      (smoothPoints ps w)[i]? = some (windowAvg ps i w)) ∧
    (ps.length ≤ w → smoothPoints ps w = ps) := by
  by_cases hle : ps.length ≤ w
  · refine ⟨?_, ?_, ?_, ?_⟩ <;> simp [smoothPoints, hle]
    intro i hw hlen
    omega
  · have hmap : ∀ i : ℕ, i < ps.length → (smoothPoints ps w)[i]? =
        some (if w ≤ i ∧ i + w < ps.length then windowAvg ps i w
              else ps.getD i ⟨0, 0⟩) := by
      intro i hi
      simp only [smoothPoints, hle, if_false, List.getElem?_map,
        List.getElem?_range, hi, if_pos hi, Option.map_some]
      rfl
    have hlen : (smoothPoints ps w).length = ps.length := by
      simp [smoothPoints, hle]
    refine ⟨hlen, ?_, ?_, fun h => absurd h hle⟩
    · intro i hi
      by_cases hlt : i < ps.length
      · rw [hmap i hlt]
        have hcond : ¬(w ≤ i ∧ i + w < ps.length) := by omega
        rw [if_neg hcond, List.getD_eq_getElem?_getD,
          List.getElem?_eq_getElem hlt]
        rfl
      · rw [List.getElem?_eq_none (by omega), List.getElem?_eq_none (by omega)]
    · intro i hwi hlt
      rw [hmap i (by omega), if_pos ⟨hwi, hlt⟩]

/-- The interior loop of `drawSmoothLine`, characterized by index: one
quadratic-curve operation per `k < l.length - 1`, with `l[k]` as control
point and the midpoint of `l[k]` and `l[k+1]` as endpoint. -/
theorem midSegs_eq_map (l : List Point) :
    midSegs l = (List.range (l.length - 1)).map (fun k =>
      CanvasOp.quadraticCurveTo (l.getD k ⟨0, 0⟩).x (l.getD k ⟨0, 0⟩).y
        (((l.getD k ⟨0, 0⟩).x + (l.getD (k + 1) ⟨0, 0⟩).x) / 2)
        (((l.getD k ⟨0, 0⟩).y + (l.getD (k + 1) ⟨0, 0⟩).y) / 2)) := by
  induction l with
  | nil => rfl
  | cons p l' ih =>
    cases l' with
    | nil => rfl
    | cons q rest =>
      show CanvasOp.quadraticCurveTo p.x p.y ((p.x + q.x) / 2) ((p.y + q.y) / 2)
          :: midSegs (q :: rest) = _
      rw [ih]
      simp only [List.length_cons, Nat.add_sub_cancel, List.range_succ_eq_map,
        List.map_cons, List.map_map]
      congr 1

/-- C2: `drawSmoothLine` issues no draw call with fewer than 2 points;
with exactly 2 points it draws one straight segment from the first to
the second; with more than 2 points it begins the path at `points[0]`,
draws, for each interior index `i = 1 .. n-2`, a quadratic curve with
`points[i]` as control point and the midpoint of `points[i]` and
`points[i+1]` as endpoint, and finally one quadratic curve with the
second-to-last point as control and the last point as endpoint. -/
theorem drawSmoothLine_spec (ps : List Point) (c : String) (s : ℚ) :
    (ps.length < 2 → drawSmoothLine ps c s = []) ∧
    (∀ p0 p1 : Point, ps = [p0, p1] → drawSmoothLine ps c s =
      [CanvasOp.setStrokeStyle c, CanvasOp.setLineWidth s,
       CanvasOp.setLineCapRound, CanvasOp.setLineJoinRound, CanvasOp.beginPath,
       CanvasOp.moveTo p0.x p0.y, CanvasOp.lineTo p1.x p1.y,
       CanvasOp.strokePath]) ∧
    (2 < ps.length → drawSmoothLine ps c s =
      [CanvasOp.setStrokeStyle c, CanvasOp.setLineWidth s,
       CanvasOp.setLineCapRound, CanvasOp.setLineJoinRound, CanvasOp.beginPath]
      ++ (CanvasOp.moveTo (ps.getD 0 ⟨0, 0⟩).x (ps.getD 0 ⟨0, 0⟩).y
          :: (List.range (ps.length - 2)).map (fun k =>
              CanvasOp.quadraticCurveTo
                (ps.getD (k + 1) ⟨0, 0⟩).x (ps.getD (k + 1) ⟨0, 0⟩).y
                (((ps.getD (k + 1) ⟨0, 0⟩).x + (ps.getD (k + 2) ⟨0, 0⟩).x) / 2)
                (((ps.getD (k + 1) ⟨0, 0⟩).y + (ps.getD (k + 2) ⟨0, 0⟩).y) / 2))
          ++ [CanvasOp.quadraticCurveTo
                (ps.getD (ps.length - 2) ⟨0, 0⟩).x
                (ps.getD (ps.length - 2) ⟨0, 0⟩).y
                (ps.getD (ps.length - 1) ⟨0, 0⟩).x
                (ps.getD (ps.length - 1) ⟨0, 0⟩).y])
      ++ [CanvasOp.strokePath]) := by
  refine ⟨?_, ?_, ?_⟩
  · intro h
    simp [drawSmoothLine, h]
  · rintro p0 p1 rfl
    simp [drawSmoothLine, List.getD]
  · intro h
    have h2 : ¬ps.length < 2 := by omega
    have h2' : ¬ps.length = 2 := by omega
    cases ps with
    | nil => simp at h
    | cons p tail =>
      simp only [drawSmoothLine, h2, if_false, h2', List.tail_cons,
        midSegs_eq_map]
      rfl

/-- Helper: whenever a computed container dimension is under 50, or the
computed display size is within 2 units of the current one in both
dimensions, `resizeCanvas` returns the canvas unchanged. -/
theorem resizeCanvas_eq_of_skip (c : Canvas) (pw ph : Option ℚ)
    (rcw rch dpr : ℚ)
    (h : jsOr pw rcw < 50 ∨ jsOr ph rch < 50 ∨
      (|jsRound (c.width / (if dpr = 0 then 1 else dpr)) - ⌊jsOr pw rcw⌋| < 2 ∧
       |jsRound (c.height / (if dpr = 0 then 1 else dpr)) - ⌊jsOr ph rch⌋| < 2)) :
    resizeCanvas c pw ph rcw rch dpr = c := by
  by_cases hg : jsOr pw rcw = 0 ∨ jsOr ph rch = 0 ∨ jsOr pw rcw < 50 ∨
      jsOr ph rch < 50
  · simp [resizeCanvas, hg]
  · have hd : |jsRound (c.width / (if dpr = 0 then 1 else dpr)) -
        ⌊jsOr pw rcw⌋| < 2 ∧
        |jsRound (c.height / (if dpr = 0 then 1 else dpr)) -
        ⌊jsOr ph rch⌋| < 2 := by
      rcases h with h1 | h1 | h1
      · exact absurd (Or.inr (Or.inr (Or.inl h1))) hg
      · exact absurd (Or.inr (Or.inr (Or.inr h1))) hg
      · exact h1
    simp [resizeCanvas, hg, hd]

/-- Helper: when neither skip guard fires, `resizeCanvas` returns the
freshly sized canvas. -/
theorem resizeCanvas_eq_of_resize (c : Canvas) (pw ph : Option ℚ)
    (rcw rch dpr : ℚ)
    (hg : ¬(jsOr pw rcw = 0 ∨ jsOr ph rch = 0 ∨ jsOr pw rcw < 50 ∨
      jsOr ph rch < 50))
    (hs : ¬(|jsRound (c.width / (if dpr = 0 then 1 else dpr)) -
        ⌊jsOr pw rcw⌋| < 2 ∧
      |jsRound (c.height / (if dpr = 0 then 1 else dpr)) -
        ⌊jsOr ph rch⌋| < 2)) :
    resizeCanvas c pw ph rcw rch dpr =
      { width := (jsToUint32 ((⌊jsOr pw rcw⌋ : ℚ) *
          (if dpr = 0 then 1 else dpr)) : ℚ)
        height := (jsToUint32 ((⌊jsOr ph rch⌋ : ℚ) *
          (if dpr = 0 then 1 else dpr)) : ℚ)
        styleWidth := (⌊jsOr pw rcw⌋ : ℚ)
        styleHeight := (⌊jsOr ph rch⌋ : ℚ)
        scale := (if dpr = 0 then 1 else dpr)
        content := [] } := by
  simp [resizeCanvas, hg, hs]

/-- Helper: under the same conditions as `resizeCanvas_eq_of_skip`, the
call performs no backing-store mutation. -/
theorem resizeCanvasMutates_false_of_skip (c : Canvas) (pw ph : Option ℚ)
    (rcw rch dpr : ℚ)
    (h : jsOr pw rcw < 50 ∨ jsOr ph rch < 50 ∨
      (|jsRound (c.width / (if dpr = 0 then 1 else dpr)) - ⌊jsOr pw rcw⌋| < 2 ∧
       |jsRound (c.height / (if dpr = 0 then 1 else dpr)) - ⌊jsOr ph rch⌋| < 2)) :
    resizeCanvasMutates c pw ph rcw rch dpr = false := by
  by_cases hg : jsOr pw rcw = 0 ∨ jsOr ph rch = 0 ∨ jsOr pw rcw < 50 ∨
      jsOr ph rch < 50
  · simp [resizeCanvasMutates, hg]
  · have hd : |jsRound (c.width / (if dpr = 0 then 1 else dpr)) -
        ⌊jsOr pw rcw⌋| < 2 ∧
        |jsRound (c.height / (if dpr = 0 then 1 else dpr)) -
        ⌊jsOr ph rch⌋| < 2 := by
      rcases h with h1 | h1 | h1
      · exact absurd (Or.inr (Or.inr (Or.inl h1))) hg
      · exact absurd (Or.inr (Or.inr (Or.inr h1))) hg
      · exact h1
    simp [resizeCanvasMutates, hg, hd]

/-- Helper: the 2-unit tolerance absorbs the `unsigned long` truncation
of a stored backing dimension whenever the device pixel ratio is at
least 2/3 and the stored product does not reach 2^32: reading the
display size back from the truncated store lands within 1 unit of the
original floored dimension. -/
theorem trunc_skip_bound (W : ℤ) (dpr : ℚ) (hdpr : 2 / 3 ≤ dpr)
    (hW : 0 ≤ W) (hlt : (W : ℚ) * dpr < 2 ^ 32) :
    |jsRound ((jsToUint32 ((W : ℚ) * dpr) : ℚ) / dpr) - W| < 2 := by
  have hdpos : (0 : ℚ) < dpr := lt_of_lt_of_le (by norm_num) hdpr
  have hprod : (0 : ℚ) ≤ (W : ℚ) * dpr :=
    mul_nonneg (by exact_mod_cast hW) hdpos.le
  have hmod : jsToUint32 ((W : ℚ) * dpr) = ⌊(W : ℚ) * dpr⌋ := by
    unfold jsToUint32 jsTrunc
    rw [if_pos hprod]
    apply Int.emod_eq_of_lt
    · exact Int.floor_nonneg.mpr hprod
    · have : ((W : ℚ) * dpr) < ((2 ^ 32 : ℤ) : ℚ) := by exact_mod_cast hlt
      exact Int.floor_lt.mpr this
  rw [hmod]
  have hub : (⌊(W : ℚ) * dpr⌋ : ℚ) / dpr ≤ (W : ℚ) := by
    rw [div_le_iff₀ hdpos]
    exact Int.floor_le _
  have hlb : (W : ℚ) - 3 / 2 < (⌊(W : ℚ) * dpr⌋ : ℚ) / dpr := by
    rw [lt_div_iff₀ hdpos]
    have h1 : (W : ℚ) * dpr - 1 < (⌊(W : ℚ) * dpr⌋ : ℚ) :=
      Int.sub_one_lt_floor _
    nlinarith
  unfold jsRound
  have hup : ⌊(⌊(W : ℚ) * dpr⌋ : ℚ) / dpr + 1 / 2⌋ ≤ W := by
    have : ⌊(⌊(W : ℚ) * dpr⌋ : ℚ) / dpr + 1 / 2⌋ < W + 1 := by
      apply Int.floor_lt.mpr
      push_cast
      linarith
    omega
  have hdown : W - 1 ≤ ⌊(⌊(W : ℚ) * dpr⌋ : ℚ) / dpr + 1 / 2⌋ := by
    apply Int.le_floor.mpr
    push_cast
    linarith
  rw [abs_lt]
  omega

/-- Helper: `jsRound` is the identity on integers. -/
theorem jsRound_intCast (z : ℤ) : jsRound (z : ℚ) = z := by
  unfold jsRound
  rw [Int.floor_int_add]
  norm_num

/-- C5: if a computed container dimension is below 50, or the computed
display size differs from the current display size by less than 2 units
in either dimension, `resizeCanvas` leaves the backing-store dimensions,
the CSS size, the context transform and the bitmap all unchanged. -/
theorem resizeCanvas_skip_spec (c : Canvas) (pw ph : Option ℚ)
    (rcw rch dpr : ℚ)
    (h : jsOr pw rcw < 50 ∨ jsOr ph rch < 50 ∨
      (|jsRound (c.width / (if dpr = 0 then 1 else dpr)) - ⌊jsOr pw rcw⌋| < 2 ∧
       |jsRound (c.height / (if dpr = 0 then 1 else dpr)) - ⌊jsOr ph rch⌋| < 2)) :
    (resizeCanvas c pw ph rcw rch dpr).width = c.width ∧
    (resizeCanvas c pw ph rcw rch dpr).height = c.height ∧
    (resizeCanvas c pw ph rcw rch dpr).styleWidth = c.styleWidth ∧
    (resizeCanvas c pw ph rcw rch dpr).styleHeight = c.styleHeight ∧
    (resizeCanvas c pw ph rcw rch dpr).scale = c.scale ∧
    (resizeCanvas c pw ph rcw rch dpr).content = c.content := by
  rw [resizeCanvas_eq_of_skip c pw ph rcw rch dpr h]
  exact ⟨rfl, rfl, rfl, rfl, rfl, rfl⟩

/-- Witness for C5: a 100×80 canvas whose container reports a 30-unit
width (below the 50-unit floor) is left untouched. -/
theorem resizeCanvas_skip_spec_witness :
    (resizeCanvas ⟨100, 80, 100, 80, 1, [CanvasOp.beginPath]⟩ (some 30)
        (some 400) 0 0 1).width =
      (⟨100, 80, 100, 80, 1, [CanvasOp.beginPath]⟩ : Canvas).width ∧
    (resizeCanvas ⟨100, 80, 100, 80, 1, [CanvasOp.beginPath]⟩ (some 30)
        (some 400) 0 0 1).height =
      (⟨100, 80, 100, 80, 1, [CanvasOp.beginPath]⟩ : Canvas).height ∧
    (resizeCanvas ⟨100, 80, 100, 80, 1, [CanvasOp.beginPath]⟩ (some 30)
        (some 400) 0 0 1).styleWidth =
      (⟨100, 80, 100, 80, 1, [CanvasOp.beginPath]⟩ : Canvas).styleWidth ∧
    (resizeCanvas ⟨100, 80, 100, 80, 1, [CanvasOp.beginPath]⟩ (some 30)
        (some 400) 0 0 1).styleHeight =
      (⟨100, 80, 100, 80, 1, [CanvasOp.beginPath]⟩ : Canvas).styleHeight ∧
    (resizeCanvas ⟨100, 80, 100, 80, 1, [CanvasOp.beginPath]⟩ (some 30)
        (some 400) 0 0 1).scale =
      (⟨100, 80, 100, 80, 1, [CanvasOp.beginPath]⟩ : Canvas).scale ∧
    (resizeCanvas ⟨100, 80, 100, 80, 1, [CanvasOp.beginPath]⟩ (some 30)
        (some 400) 0 0 1).content =
      (⟨100, 80, 100, 80, 1, [CanvasOp.beginPath]⟩ : Canvas).content :=
  resizeCanvas_skip_spec ⟨100, 80, 100, 80, 1, [CanvasOp.beginPath]⟩ (some 30)
    (some 400) 0 0 1 (by decide)

/-- C6 counterexample: at device pixel ratio 2/5 (40% browser zoom)
with a 52×52 container, BOTH calls take the resize path: the first
stores `ToUint32(52 · 2/5) = 20`; the second reads the display size
back as `round(20 / 0.4) = 50` and `|50 - 52| = 2 ≥ 2`, so the skip
guard fails and the backing store is written — and its bitmap cleared —
a second time.  The second call does not take the skip path. -/
theorem resizeCanvas_idem_counterexample :
    resizeCanvasMutates sampleOffZero (some 52) (some 52) 0 0 (2 / 5) =
      true ∧
    resizeCanvasMutates
      (resizeCanvas sampleOffZero (some 52) (some 52) 0 0 (2 / 5))
      (some 52) (some 52) 0 0 (2 / 5) = true := by
  have hop : jsOr (some 52) (0 : ℚ) = 52 := by norm_num [jsOr]
  have hdprE : (if (2 / 5 : ℚ) = 0 then 1 else (2 / 5 : ℚ)) = 2 / 5 := by
    norm_num
  have hg : ¬(jsOr (some 52) (0 : ℚ) = 0 ∨ jsOr (some 52) (0 : ℚ) = 0 ∨
      jsOr (some 52) (0 : ℚ) < 50 ∨ jsOr (some 52) (0 : ℚ) < 50) := by
    rw [hop]
    norm_num
  have hr0 : jsRound (sampleOffZero.width /
      (if (2 / 5 : ℚ) = 0 then 1 else (2 / 5 : ℚ))) = 0 := by
    rw [hdprE]
    norm_num [sampleOffZero, jsRound]
  have hs : ¬(|jsRound (sampleOffZero.width /
        (if (2 / 5 : ℚ) = 0 then 1 else (2 / 5 : ℚ))) -
        ⌊jsOr (some 52) (0 : ℚ)⌋| < 2 ∧
      |jsRound (sampleOffZero.height /
        (if (2 / 5 : ℚ) = 0 then 1 else (2 / 5 : ℚ))) -
        ⌊jsOr (some 52) (0 : ℚ)⌋| < 2) := by
    rw [hop, hr0]
    norm_num
  have hstore : jsToUint32 ((⌊jsOr (some 52) (0 : ℚ)⌋ : ℚ) *
      (if (2 / 5 : ℚ) = 0 then 1 else (2 / 5 : ℚ))) = 20 := by
    rw [hop, hdprE]
    have harg : ((⌊(52 : ℚ)⌋ : ℚ)) * (2 / 5) = 104 / 5 := by norm_num
    rw [harg, jsToUint32, jsTrunc, if_pos (by norm_num)]
    norm_num
  constructor
  · simp only [resizeCanvasMutates, hg, if_false]
    rw [if_neg hs]
  · rw [resizeCanvas_eq_of_resize sampleOffZero (some 52) (some 52) 0 0
      (2 / 5) hg hs]
    simp only [resizeCanvasMutates, hg, if_false, hstore]
    rw [if_neg]
    rw [hop]
    have hr50 : jsRound (((20 : ℤ) : ℚ) /
        (if (2 / 5 : ℚ) = 0 then 1 else (2 / 5 : ℚ))) = 50 := by
      rw [hdprE]
      norm_num [jsRound]
    rw [hr50]
    norm_num

/-- C6 amended: calling `resizeCanvas` twice in a row with unchanged
container dimensions and device pixel ratio performs at most one
backing-store mutation, provided the device pixel ratio is at least 2/3
and the scaled dimensions stay below 2^32 (so the `unsigned long`
conversion loses less than one display unit): the second call takes the
skip path — it performs no backing-store write — and returns the first
call's canvas unchanged.  For ratios below 2/3 the truncation error can
reach the 2-unit tolerance and the second call resizes again. -/
theorem resizeCanvas_second_call_skips (c : Canvas) (pw ph : Option ℚ)
    (rcw rch dpr : ℚ) (hdpr : 2 / 3 ≤ dpr)
    (hw : (⌊jsOr pw rcw⌋ : ℚ) * dpr < 2 ^ 32)
    (hh : (⌊jsOr ph rch⌋ : ℚ) * dpr < 2 ^ 32) :
    resizeCanvasMutates (resizeCanvas c pw ph rcw rch dpr)
      pw ph rcw rch dpr = false ∧
    resizeCanvas (resizeCanvas c pw ph rcw rch dpr) pw ph rcw rch dpr =
      resizeCanvas c pw ph rcw rch dpr := by
  have hdpr0 : dpr ≠ 0 := by
    intro h0
    rw [h0] at hdpr
    norm_num at hdpr
  have hdprE : (if dpr = 0 then 1 else dpr) = dpr := if_neg hdpr0
  by_cases hg : jsOr pw rcw = 0 ∨ jsOr ph rch = 0 ∨ jsOr pw rcw < 50 ∨
      jsOr ph rch < 50
  · have h' : jsOr pw rcw < 50 ∨ jsOr ph rch < 50 ∨
        (|jsRound (c.width / (if dpr = 0 then 1 else dpr)) -
          ⌊jsOr pw rcw⌋| < 2 ∧
         |jsRound (c.height / (if dpr = 0 then 1 else dpr)) -
          ⌊jsOr ph rch⌋| < 2) := by
      rcases hg with h0 | h0 | h0 | h0
      · exact Or.inl (by rw [h0]; norm_num)
      · exact Or.inr (Or.inl (by rw [h0]; norm_num))
      · exact Or.inl h0
      · exact Or.inr (Or.inl h0)
    have h1 : resizeCanvas c pw ph rcw rch dpr = c :=
      resizeCanvas_eq_of_skip c pw ph rcw rch dpr h'
    rw [h1]
    exact ⟨resizeCanvasMutates_false_of_skip c pw ph rcw rch dpr h', h1⟩
  · by_cases hs : |jsRound (c.width / (if dpr = 0 then 1 else dpr)) -
        ⌊jsOr pw rcw⌋| < 2 ∧
        |jsRound (c.height / (if dpr = 0 then 1 else dpr)) -
        ⌊jsOr ph rch⌋| < 2
    · have h1 : resizeCanvas c pw ph rcw rch dpr = c :=
        resizeCanvas_eq_of_skip c pw ph rcw rch dpr (Or.inr (Or.inr hs))
      rw [h1]
      exact ⟨resizeCanvasMutates_false_of_skip c pw ph rcw rch dpr
        (Or.inr (Or.inr hs)), h1⟩
    · rw [resizeCanvas_eq_of_resize c pw ph rcw rch dpr hg hs]
      have hW0 : (0 : ℤ) ≤ ⌊jsOr pw rcw⌋ := by
        have h50 : (50 : ℚ) ≤ jsOr pw rcw := by
          by_contra hlt
          exact hg (Or.inr (Or.inr (Or.inl (lt_of_not_le hlt))))
        have : (50 : ℤ) ≤ ⌊jsOr pw rcw⌋ := Int.le_floor.mpr (by push_cast; linarith)
        omega
      have hH0 : (0 : ℤ) ≤ ⌊jsOr ph rch⌋ := by
        have h50 : (50 : ℚ) ≤ jsOr ph rch := by
          by_contra hlt
          exact hg (Or.inr (Or.inr (Or.inr (lt_of_not_le hlt))))
        have : (50 : ℤ) ≤ ⌊jsOr ph rch⌋ := Int.le_floor.mpr (by push_cast; linarith)
        omega
      have hskipT : |jsRound ((jsToUint32 ((⌊jsOr pw rcw⌋ : ℚ) *
            (if dpr = 0 then 1 else dpr)) : ℚ) /
            (if dpr = 0 then 1 else dpr)) - ⌊jsOr pw rcw⌋| < 2 ∧
          |jsRound ((jsToUint32 ((⌊jsOr ph rch⌋ : ℚ) *
            (if dpr = 0 then 1 else dpr)) : ℚ) /
            (if dpr = 0 then 1 else dpr)) - ⌊jsOr ph rch⌋| < 2 := by
        rw [hdprE]
        exact ⟨trunc_skip_bound ⌊jsOr pw rcw⌋ dpr hdpr hW0 hw,
          trunc_skip_bound ⌊jsOr ph rch⌋ dpr hdpr hH0 hh⟩
      exact ⟨resizeCanvasMutates_false_of_skip _ pw ph rcw rch dpr
          (Or.inr (Or.inr hskipT)),
        resizeCanvas_eq_of_skip _ pw ph rcw rch dpr
          (Or.inr (Or.inr hskipT))⟩

/-- Witness for C6 (amended): a zero-sized canvas, a 100×100 container
and device pixel ratio 1 — the second call skips. -/
theorem resizeCanvas_second_call_skips_witness :
    resizeCanvasMutates
      (resizeCanvas sampleOffZero (some 100) (some 100) 0 0 1)
      (some 100) (some 100) 0 0 1 = false ∧
    resizeCanvas (resizeCanvas sampleOffZero (some 100) (some 100) 0 0 1)
      (some 100) (some 100) 0 0 1 =
      resizeCanvas sampleOffZero (some 100) (some 100) 0 0 1 :=
  resizeCanvas_second_call_skips sampleOffZero (some 100) (some 100) 0 0 1
    (by norm_num) (by norm_num [jsOr]) (by norm_num [jsOr])

/-- C3 counterexample: in the trace pointer-down at (10,10) then
pointer-move to (10, 10.5) with the default threshold 2, the decimated
in-progress buffer has NOT dropped the point (10, 10.5):
`optimizePoints` force-retains the final point of the buffer, so the
sub-threshold point survives this move (it is only dropped by the next
re-decimation). -/
theorem draw_trace_counterexample :
    Point.mk 10 (21 / 2) ∈
      (draw ⟨10, 21 / 2⟩ (startDrawing ⟨10, 10⟩ "s1" initState)).currentStroke ∧
    (draw ⟨10, 21 / 2⟩ (startDrawing ⟨10, 10⟩ "s1" initState)).currentStroke =
      [⟨10, 10⟩, ⟨10, 21 / 2⟩] := by
  have heq : (draw ⟨10, 21 / 2⟩
      (startDrawing ⟨10, 10⟩ "s1" initState)).currentStroke =
      [⟨10, 10⟩, ⟨10, 21 / 2⟩] := by
    norm_num [draw, startDrawing, initState, optimizePoints, optLoop, distGE,
      distSq]
  rw [heq]
  exact ⟨List.mem_cons_of_mem _ (List.mem_singleton_self _), rfl⟩

/-- C3 amended: in the trace pointer-down at (10,10), move to (10,10.5),
move to (20,20), pointer-up (threshold 2): after the first move the
buffer still holds (10,10.5) as its force-retained endpoint; the second
move's re-decimation drops it; at pointer-up the chunk handed to the
sync client has exactly the points (10,10) and (20,20) and
`strokeComplete = true`. -/
theorem draw_trace_amended :
    (draw ⟨10, 21 / 2⟩ (startDrawing ⟨10, 10⟩ "s1" initState)).currentStroke =
      [⟨10, 10⟩, ⟨10, 21 / 2⟩] ∧
    (draw ⟨20, 20⟩ (draw ⟨10, 21 / 2⟩
        (startDrawing ⟨10, 10⟩ "s1" initState))).currentStroke =
      [⟨10, 10⟩, ⟨20, 20⟩] ∧
    (endDrawing "b" "u" 0 "#000000" 5 (draw ⟨20, 20⟩ (draw ⟨10, 21 / 2⟩
        (startDrawing ⟨10, 10⟩ "s1" initState)))).1 =
      some { id := "", boardId := "b", uid := "u", timestamp := 0,
             points := [⟨10, 10⟩, ⟨20, 20⟩], color := "#000000", size := 5,
             chunkIndex := 0, strokeComplete := true } := by
  have h1 : (draw ⟨10, 21 / 2⟩
      (startDrawing ⟨10, 10⟩ "s1" initState)).currentStroke =
      [⟨10, 10⟩, ⟨10, 21 / 2⟩] := by
    norm_num [draw, startDrawing, initState, optimizePoints, optLoop, distGE,
      distSq]
  have h3 : draw ⟨20, 20⟩ (draw ⟨10, 21 / 2⟩
      (startDrawing ⟨10, 10⟩ "s1" initState)) =
      { isDrawing := true, currentStroke := [⟨10, 10⟩, ⟨20, 20⟩],
        currentStrokeId := some "s1", chunkIndex := 0 } := by
    norm_num [draw, startDrawing, initState, optimizePoints, optLoop, distGE,
      distSq]
  refine ⟨h1, by rw [h3], ?_⟩
  rw [h3]
  simp [endDrawing]

/-- Helper for C4: a single event step only ever submits complete,
non-empty chunks. -/
theorem chunk_of_step (s : DrawingState) (e : PointerEvent)
    (chunk : StrokeChunk) (h : chunk ∈ (step s e).2) :
    chunk.strokeComplete = true ∧ chunk.points ≠ [] := by
  cases e with
  | down pos sid => simp [step] at h
  | move pos => simp [step] at h
  | up b u ts col sz =>
    simp only [step] at h
    unfold endDrawing at h
    by_cases hlen : s.currentStroke.length = 0
    · simp [hlen] at h
    · simp only [hlen, if_false, Option.toList_some, List.mem_singleton] at h
      subst h
      refine ⟨rfl, ?_⟩
      intro hnil
      exact hlen (by simpa using hnil)

/-- Helper for C4: over any event sequence from any state, every chunk
submitted to the sync client is complete and non-empty. -/
theorem chunk_of_run (s : DrawingState) (events : List PointerEvent)
    (chunk : StrokeChunk) (h : chunk ∈ (run s events).2) :
    chunk.strokeComplete = true ∧ chunk.points ≠ [] := by
  induction events generalizing s with
  | nil => simp [run] at h
  | cons e es ih =>
    simp only [run] at h
    rcases List.mem_append.mp h with h | h
    · exact chunk_of_step s e chunk h
    · exact ih _ h

/-- C4: in any sequence of pointer-down/move/up events from the initial
state, every StrokeChunk passed to the sync client's persist operation
has `strokeComplete = true` and a non-empty points list. -/
theorem addStrokeChunk_invariant (events : List PointerEvent)
    (chunk : StrokeChunk) (h : chunk ∈ (run initState events).2) :
    chunk.strokeComplete = true ∧ chunk.points ≠ [] :=
  chunk_of_run initState events chunk h

/-- Witness for C4: the down-then-up gesture submits exactly
`sampleChunk`, which is complete and non-empty. -/
theorem addStrokeChunk_invariant_witness :
    sampleChunk ∈ (run initState sampleEvents).2 ∧
    sampleChunk.strokeComplete = true ∧ sampleChunk.points ≠ [] :=
  ⟨by simp [run, step, sampleEvents, startDrawing, endDrawing, initState,
      sampleChunk],
   addStrokeChunk_invariant sampleEvents sampleChunk
     (by simp [run, step, sampleEvents, startDrawing, endDrawing, initState,
       sampleChunk])⟩

/-- C8 counterexample: a sized (100×100) visible canvas with painted
content, a zero-sized offscreen canvas and one stroke: the offscreen
canvas has a zero backing-store width when `renderAllStrokes` runs, yet
the recompose is NOT skipped — the size sync first resizes the offscreen
canvas to match the visible one, and clear, stroke-draw and blit
operations are then performed (the visible canvas's content changes). -/
theorem renderAllStrokes_counterexample :
    sampleOffZero.width = 0 ∧
    (renderAllStrokes sampleVis sampleOffZero [sampleStroke] 1).2.2 ≠ [] ∧
    (renderAllStrokes sampleVis sampleOffZero [sampleStroke] 1).1.content ≠
      sampleVis.content := by
  refine ⟨by decide, by decide, by decide⟩

/-- C8 amended: if the VISIBLE canvas has a zero backing-store width or
height when `renderAllStrokes` runs, no clear, stroke-draw or blit
operation is performed (empty operation log), the visible surface is
returned unchanged, and the offscreen surface is changed only by the
size synchronization (which resizes it — clearing its bitmap — exactly
when its backing dimensions differ from the visible canvas's). -/
theorem renderAllStrokes_zero_skip (vis off : Canvas)
    (strokes : List StrokeChunk) (dpr : ℚ)
    (h : vis.width = 0 ∨ vis.height = 0) :
    (renderAllStrokes vis off strokes dpr).2.2 = [] ∧
    (renderAllStrokes vis off strokes dpr).1 = vis ∧
    (renderAllStrokes vis off strokes dpr).2.1 =
      syncOffscreenCanvasSize vis off dpr := by
  rcases h with h | h <;> simp [renderAllStrokes, h]

/-- Witness for C8 (amended): a zero-sized visible canvas with a sized
offscreen canvas and one stroke — nothing is drawn. -/
theorem renderAllStrokes_zero_skip_witness :
    (renderAllStrokes sampleOffZero sampleVis [sampleStroke] 1).2.2 = [] ∧
    (renderAllStrokes sampleOffZero sampleVis [sampleStroke] 1).1 =
      sampleOffZero ∧
    (renderAllStrokes sampleOffZero sampleVis [sampleStroke] 1).2.1 =
      syncOffscreenCanvasSize sampleOffZero sampleVis 1 :=
  renderAllStrokes_zero_skip sampleOffZero sampleVis [sampleStroke] 1
    (by decide)

/-- C10: the board-clear handler is atomic with respect to remote
failure — when `clearAllStrokes` resolves, the local stroke list is
emptied and both canvases' bitmaps are cleared; when it rejects, the
error is swallowed and the stroke list and both canvases are left
completely unchanged. -/
theorem handleClearCanvas_spec (allStrokes : List StrokeChunk)
    (vis off : Canvas) :
    (handleClearCanvas true allStrokes vis off).1 = [] ∧
    (handleClearCanvas true allStrokes vis off).2.1.content = [] ∧
    (handleClearCanvas true allStrokes vis off).2.2.content = [] ∧
    handleClearCanvas false allStrokes vis off = (allStrokes, vis, off) :=
  ⟨rfl, rfl, rfl, rfl⟩

end WB
